import Mathlib

/-!
Verification of the research-extension core against its specification.

Strings of the JavaScript source are modelled as `List Char`; every function
below is a shallow embedding of a function of the repository (file and line
references are given on each definition).  JavaScript numeric indices are
modelled as `Nat` where they are provably non-negative and as `Int` where the
`-1` sentinel or negative arithmetic can occur.
-/

set_option maxRecDepth 40000

set_option maxHeartbeats 2000000

namespace ResearchExt

/-- JavaScript `\s` / `trim` whitespace, restricted to the characters that can
realistically occur in extracted text (space, tab, LF, CR, VT, FF, NBSP). -/
def jsWhitespace (c : Char) : Bool :=
  c = ' ' || c = '\t' || c = '\n' || c = '\r' ||
  c = Char.ofNat 11 || c = Char.ofNat 12 || c = Char.ofNat 160

def isDigitC (c : Char) : Bool :=
  '0' ≤ c && c ≤ '9'

/-- JavaScript `\w`: ASCII letters, digits and underscore. -/
def isWordC (c : Char) : Bool :=
  ('a' ≤ c && c ≤ 'z') || ('A' ≤ c && c ≤ 'Z') || isDigitC c || c = '_'

def toLowerAscii (c : Char) : Char :=
  if 'A' ≤ c && c ≤ 'Z' then Char.ofNat (c.toNat + 32) else c

def toUpperAscii (c : Char) : Char :=
  if 'a' ≤ c && c ≤ 'z' then Char.ofNat (c.toNat - 32) else c

/-- JavaScript `String.prototype.trim`. -/
def trimL (cs : List Char) : List Char :=
  ((cs.dropWhile jsWhitespace).reverse.dropWhile jsWhitespace).reverse

theorem length_dropWhile_le (p : Char → Bool) (cs : List Char) :
    (cs.dropWhile p).length ≤ cs.length := by
  induction cs with
  | nil => simp
  | cons c cs ih =>
    by_cases h : p c
    · simp only [List.dropWhile_cons_of_pos h]
      exact Nat.le_trans ih (Nat.le_succ _)
    · simp [List.dropWhile_cons_of_neg h]

theorem trimL_length_le (cs : List Char) : (trimL cs).length ≤ cs.length := by
  unfold trimL
  calc ((cs.dropWhile jsWhitespace).reverse.dropWhile jsWhitespace).reverse.length
      = ((cs.dropWhile jsWhitespace).reverse.dropWhile jsWhitespace).length := by
        simp
    _ ≤ (cs.dropWhile jsWhitespace).reverse.length := length_dropWhile_le _ _
    _ = (cs.dropWhile jsWhitespace).length := by simp
    _ ≤ cs.length := length_dropWhile_le _ _

/-- One-pass scan implementing `text.replace(/\s+/g, " ")`: `inRun` records
whether the previous character belonged to a whitespace run. -/
def collapseWsAux (inRun : Bool) : List Char → List Char
  | [] => []
  | c :: rest =>
    if jsWhitespace c then
      if inRun then collapseWsAux true rest else ' ' :: collapseWsAux true rest
    else c :: collapseWsAux false rest

/-- JavaScript `text.replace(/\s+/g, " ")`: every maximal whitespace run
becomes a single space (content.js line 436, part_000 line 84). -/
def collapseWs (cs : List Char) : List Char := collapseWsAux false cs

/-- One-pass scan implementing `text.replace(/\n+/g, "\n")`. -/
def collapseNlAux (inRun : Bool) : List Char → List Char
  | [] => []
  | c :: rest =>
    if c = '\n' then
      if inRun then collapseNlAux true rest else '\n' :: collapseNlAux true rest
    else c :: collapseNlAux false rest

/-- JavaScript `text.replace(/\n+/g, "\n")` (content.js line 436). -/
def collapseNl (cs : List Char) : List Char := collapseNlAux false cs

/-- JavaScript `str.split(sep)` for a one-character separator. -/
def splitOnChar (sep : Char) (cs : List Char) : List (List Char) :=
  match cs with
  | [] => [[]]
  | c :: rest =>
    match splitOnChar sep rest with
    | [] => [[]]
    | h :: t => if c = sep then [] :: h :: t else (c :: h) :: t

/-- JavaScript `Array.prototype.join(sep)`. -/
def joinWith (sep : List Char) : List (List Char) → List Char
  | [] => []
  | [x] => x
  | x :: y :: rest => x ++ sep ++ joinWith sep (y :: rest)

/-- JavaScript `str.substring(a, b)` with non-negative indices: clamps to the
string length and swaps the arguments when `a > b`. -/
def jsSubstringNat (cs : List Char) (a b : Nat) : List Char :=
  if a ≤ b then (cs.take b).drop a else (cs.take a).drop b

/-- JavaScript `str.substring(a, b)` on possibly-negative indices. -/
def jsSubstringI (cs : List Char) (a b : Int) : List Char :=
  jsSubstringNat cs (min a.toNat cs.length) (min b.toNat cs.length)

def jsIndexOfAux (pat : List Char) : Nat → List Char → Option Nat
  | pos, [] => if pat = [] then some pos else none
  | pos, c :: rest =>
    if pat.isPrefixOf (c :: rest) then some pos else jsIndexOfAux pat (pos + 1) rest

/-- JavaScript `str.indexOf(pat)` (`-1` when absent). -/
def jsIndexOf (cs pat : List Char) : Int :=
  match jsIndexOfAux pat 0 cs with
  | some i => (i : Int)
  | none => -1

/-- Case-insensitive literal match: `pat` must already be lower-case; returns
the remainder of `cs` after the matched prefix. -/
def stripCI : List Char → List Char → Option (List Char)
  | [], cs => some cs
  | _ :: _, [] => none
  | p :: ps, c :: cs => if toLowerAscii c = p then stripCI ps cs else none

/-! ## Truncation strategies (part_000 lines 31-70) -/

/-- The fixed truncation marker of `smartTruncate` (46 characters). -/
def truncMarker : List Char :=
  "\n\n...[Content Truncated for Token Limits]...\n\n".toList

/-- part_000 lines 31-41: midpoint truncation.  `!text` is modelled by the
empty list, which already satisfies the `length ≤ maxLength` branch. -/
def smartTruncate (text : List Char) (maxLength : Nat) : List Char :=
  if text.length ≤ maxLength then text
  else
    let halfLength := maxLength / 2
    text.take halfLength ++ truncMarker ++ text.drop (text.length - halfLength)

def isSentEnd (c : Char) : Bool := c = '.' || c = '!' || c = '?'

/-- One-pass scan implementing `/[^.!?]+[.!?]+/g`: `body` and `terms` are the
(reversed) pending non-terminator run and terminator run.  Empty `body` and
`terms` means no match has started; non-empty `terms` means a match is
pending and is emitted when the terminator run ends. -/
def sentScan (body terms : List Char) : List Char → List (List Char)
  | [] => if terms = [] then [] else [body.reverse ++ terms.reverse]
  | c :: rest =>
    if isSentEnd c then
      if body = [] && terms = [] then sentScan [] [] rest
      else sentScan body (c :: terms) rest
    else
      if terms = [] then sentScan (c :: body) [] rest
      else (body.reverse ++ terms.reverse) :: sentScan [c] [] rest

/-- The successive matches of `text.match(/[^.!?]+[.!?]+/g)` (part_000 line
52): each match is a maximal run of non-terminators followed by a maximal run
of terminators; leading terminators are skipped and a trailing unterminated
run is not matched. -/
def sentMatches (cs : List Char) : List (List Char) := sentScan [] [] cs

def ellipsisMarker : List Char := "...".toList

/-- The sentence-accumulation loop of `intelligentTruncate` (part_000 lines
54-69).  The JavaScript `currentLength` variable always equals
`result.length`, so the accumulator is used directly. -/
def itLoop (maxLength : Nat) : List (List Char) → List Char → List Char
  | [], result => trimL result
  | s :: rest, result =>
    if maxLength < result.length + s.length then
      if result = [] then s.take maxLength ++ ellipsisMarker
      else trimL result
    else itLoop maxLength rest (result ++ s)

/-- part_000 lines 46-70: sentence-boundary truncation. -/
def intelligentTruncate (text : List Char) (maxLength : Nat) : List Char :=
  if text.length ≤ maxLength then text
  else
    let sentences := match sentMatches text with
      | [] => [text]
      | l => l
    itLoop maxLength sentences []

theorem itLoop_length_le (maxLength : Nat) (ss : List (List Char))
    (res : List Char) (h : res.length ≤ maxLength) :
    (itLoop maxLength ss res).length ≤ maxLength + 3 := by
  induction ss generalizing res with
  | nil =>
    simp only [itLoop]
    exact Nat.le_trans (trimL_length_le res) (by omega)
  | cons s rest ih =>
    simp only [itLoop]
    by_cases hover : maxLength < res.length + s.length
    · rw [if_pos hover]
      by_cases hres : res = []
      · rw [if_pos hres]
        have : (s.take maxLength).length ≤ maxLength := by
          simp [List.length_take]
        simp only [List.length_append]
        have : ellipsisMarker.length = 3 := rfl
        omega
      · rw [if_neg hres]
        exact Nat.le_trans (trimL_length_le res) (by omega)
    · rw [if_neg hover]
      exact ih (res ++ s) (by simp only [List.length_append]; omega)

theorem intelligentTruncate_length_le (text : List Char) (maxLength : Nat) :
    (intelligentTruncate text maxLength).length ≤ maxLength + 3 := by
  unfold intelligentTruncate
  by_cases h : text.length ≤ maxLength
  · rw [if_pos h]; omega
  · rw [if_neg h]
    exact itLoop_length_le maxLength _ [] (by simp)

theorem smartTruncate_length_le (text : List Char) (maxLength : Nat) :
    (smartTruncate text maxLength).length ≤ maxLength + 46 := by
  unfold smartTruncate
  by_cases h : text.length ≤ maxLength
  · rw [if_pos h]; omega
  · rw [if_neg h]
    have hm : truncMarker.length = 46 := rfl
    simp only [List.length_append, List.length_take, List.length_drop]
    omega

/-- C1: both truncation strategies were claimed to return an output of length
at most `maxLength`; in fact each can exceed the budget by the length of the
marker it appends (46 characters for the midpoint marker, 3 for the
ellipsis), and these are the exact worst-case bounds. -/
theorem c1_truncation_output_bounds :
    ∀ (text : List Char) (maxLength : Nat),
      (smartTruncate text maxLength).length ≤ maxLength + 46 ∧
      (intelligentTruncate text maxLength).length ≤ maxLength + 3 :=
  fun text maxLength =>
    ⟨smartTruncate_length_le text maxLength,
     intelligentTruncate_length_le text maxLength⟩

/-- C1 counterexample: on a 40-character input with budget 10, the midpoint
strategy returns 56 characters and the sentence-boundary strategy 13, both
above the claimed bound of 10. -/
theorem c1_truncation_counterexample :
    10 < (smartTruncate (List.replicate 40 'a') 10).length ∧
    10 < (intelligentTruncate (List.replicate 40 'a') 10).length := by
  decide

/-! ## ContextCombiner (part_000 lines 155-180) -/

structure LabeledSection where
  label : List Char
  text : List Char
deriving DecidableEq

/-- The loop of `combineContexts` (part_000 lines 159-177); `totalLength`
accumulates the pushed section lengths, `available` is computed with
JavaScript (signed) arithmetic, and `break` is modelled by returning the
empty remainder. -/
def combineGo (maxTotalLength : Nat) : List LabeledSection → Nat → List LabeledSection
  | [], _ => []
  | s :: rest, totalLength =>
    if s.text = [] then combineGo maxTotalLength rest totalLength
    else
      let available : Int := (maxTotalLength : Int) - totalLength
      if available ≤ 100 then []
      else
        let sectionText :=
          if available < s.text.length then intelligentTruncate s.text available.toNat
          else s.text
        ⟨s.label, sectionText⟩ :: combineGo maxTotalLength rest (totalLength + sectionText.length)

/-- part_000 lines 155-180. -/
def combineContexts (sections : List LabeledSection) (maxTotalLength : Nat) :
    List LabeledSection :=
  combineGo maxTotalLength sections 0

def totalTextLength (l : List LabeledSection) : Nat :=
  (l.map (fun s => s.text.length)).sum

theorem combineGo_breaks (maxTotalLength : Nat) (ss : List LabeledSection)
    (total : Nat) (h : (maxTotalLength : Int) - total ≤ 100) :
    combineGo maxTotalLength ss total = [] := by
  induction ss with
  | nil => rfl
  | cons s rest ih =>
    simp only [combineGo]
    by_cases hs : s.text = []
    · rw [if_pos hs]; exact ih
    · rw [if_neg hs, if_pos h]

theorem combineGo_total_le (maxTotalLength : Nat) (ss : List LabeledSection)
    (total : Nat) (h : total ≤ maxTotalLength) :
    totalTextLength (combineGo maxTotalLength ss total)
      ≤ (maxTotalLength - total) + 3 := by
  induction ss generalizing total with
  | nil => simp [combineGo, totalTextLength]
  | cons s rest ih =>
    simp only [combineGo]
    by_cases hs : s.text = []
    · rw [if_pos hs]; exact ih total h
    · rw [if_neg hs]
      by_cases hav : (maxTotalLength : Int) - total ≤ 100
      · rw [if_pos hav]; simp [totalTextLength]
      · rw [if_neg hav]
        have hav' : 100 < maxTotalLength - total := by omega
        by_cases htr : (maxTotalLength : Int) - total < s.text.length
        · rw [if_pos htr]
          set st := intelligentTruncate s.text ((maxTotalLength : Int) - total).toNat
            with hst
          have hb : st.length ≤ ((maxTotalLength : Int) - total).toNat + 3 :=
            intelligentTruncate_length_le _ _
          by_cases hfit : st.length ≤ maxTotalLength - total
          · have ih' := ih (total + st.length) (by omega)
            simp only [totalTextLength, List.map_cons, List.sum_cons] at *
            omega
          · have hbrk : combineGo maxTotalLength rest (total + st.length) = [] := by
              apply combineGo_breaks
              omega
            rw [hbrk]
            simp only [totalTextLength, List.map_cons, List.map_nil,
              List.sum_cons, List.sum_nil]
            omega
        · rw [if_neg htr]
          have hlen : s.text.length ≤ maxTotalLength - total := by omega
          have ih' := ih (total + s.text.length) (by omega)
          simp only [totalTextLength, List.map_cons, List.sum_cons] at *
          omega

/-- C3: `combineContexts` was claimed to keep the total combined length within
`totalBudget`; the sentence-boundary truncation of an oversized section can
append a 3-character ellipsis past the remaining budget, so the provable
bound is `totalBudget + 3`. -/
theorem c3_combine_contexts_budget :
    ∀ (sections : List LabeledSection) (totalBudget : Nat),
      totalTextLength (combineContexts sections totalBudget) ≤ totalBudget + 3 := by
  intro sections totalBudget
  have := combineGo_total_le totalBudget sections 0 (Nat.zero_le _)
  simpa [combineContexts] using this

/-- C3 counterexample: a single 200-character section with no sentence
boundary, combined under a budget of 150, yields a combined length of 153. -/
theorem c3_combine_contexts_counterexample :
    150 <
      totalTextLength
        (combineContexts [⟨[], List.replicate 200 'a'⟩] 150) := by
  decide

/-! ## SectionSegmenter (content.js lines 426-573)

Each anchor regex of `parseResearchPaperFromText` is hand-compiled to a
matcher `Bool → List Char → Option Nat` that, given whether the previous
character was a word character (for `\b`) and the suffix starting at the
current position, returns the length of the match at that position.  The
greedy/backtracking behaviour of each pattern is reproduced; where maximal
munch is provably equivalent to backtracking (disjoint character classes on
both sides of a star) the maximal-munch form is used. -/

def absWord : List Char := "abstract".toList

def sumWord : List Char := "summary".toList

def introWord : List Char := "introduction".toList

def conclWord : List Char := "conclusion".toList

def discWord : List Char := "discussion".toList

def limitWord : List Char := "limitations".toList

def futureWord : List Char := "future work".toList

def refsWord : List Char := "references".toList

def biblioWord : List Char := "bibliography".toList

def ackWord : List Char := "acknowledgment".toList

/-- Case-insensitive keyword followed by a `\b` boundary; returns the
consumed length and the remainder. -/
def tryKeywordBoundary (w : List Char) (cs : List Char) : Option (Nat × List Char) :=
  match stripCI w cs with
  | none => none
  | some rest =>
    match rest with
    | [] => some (w.length, [])
    | c :: _ => if isWordC c then none else some (w.length, rest)

/-- `/\b(Abstract|Summary)\b[\s\n:]*/i` (content.js line 443). -/
def matchAbstractAt (prevW : Bool) (cs : List Char) : Option Nat :=
  if prevW then none
  else
    match tryKeywordBoundary absWord cs with
    | some (len, rest) =>
      some (len + (rest.takeWhile (fun c => jsWhitespace c || c = ':')).length)
    | none =>
      match tryKeywordBoundary sumWord cs with
      | some (len, rest) =>
        some (len + (rest.takeWhile (fun c => jsWhitespace c || c = ':')).length)
      | none => none

/-- `/\b(1\.?|I\.?)\s*Introduction\b/i` (content.js line 445).  When the
optional dot is present it must be consumed: skipping it leaves `\s*` and the
keyword facing the dot, which always fails. -/
def matchIntroAt (prevW : Bool) (cs : List Char) : Option Nat :=
  if prevW then none
  else
    match cs with
    | [] => none
    | c :: rest =>
      if c = '1' || toLowerAscii c = 'i' then
        let (lead, rest1) : Nat × List Char :=
          match rest with
          | '.' :: r => (2, r)
          | _ => (1, rest)
        let ws := rest1.takeWhile jsWhitespace
        let rest2 := rest1.drop ws.length
        match stripCI introWord rest2 with
        | none => none
        | some rest3 =>
          match rest3 with
          | [] => some (lead + ws.length + introWord.length)
          | d :: _ =>
            if isWordC d then none else some (lead + ws.length + introWord.length)
      else none

/-- First matching alternative of a keyword group, each with a trailing
boundary; the alternatives have pairwise distinct first letters so at most
one can match at a given position. -/
def tryAnyKeyword : List (List Char) → List Char → Option Nat
  | [], _ => none
  | w :: wsRest, cs =>
    match tryKeywordBoundary w cs with
    | some (len, _) => some len
    | none => tryAnyKeyword wsRest cs

/-- `/\b(\d+\.?|[IVX]+\.?)\s*(Conclusion|Discussion|Limitations|Future Work)\b/i`
(content.js lines 447-448). -/
def matchConclusionAt (prevW : Bool) (cs : List Char) : Option Nat :=
  if prevW then none
  else
    let digits := cs.takeWhile isDigitC
    let roman := cs.takeWhile
      (fun c => toLowerAscii c = 'i' || toLowerAscii c = 'v' || toLowerAscii c = 'x')
    let numLen := if digits = [] then roman.length else digits.length
    if numLen = 0 then none
    else
      let rest0 := cs.drop numLen
      let (dotLen, rest1) : Nat × List Char :=
        match rest0 with
        | '.' :: r => (1, r)
        | _ => (0, rest0)
      let ws := rest1.takeWhile jsWhitespace
      let rest2 := rest1.drop ws.length
      match tryAnyKeyword [conclWord, discWord, limitWord, futureWord] rest2 with
      | some klen => some (numLen + dotLen + ws.length + klen)
      | none => none

/-- `/\b(References|REFERENCES|Bibliography|Acknowledgment[s]?)\b/i`
(content.js lines 449-450); the first two alternatives coincide under `/i`. -/
def matchReferencesAt (prevW : Bool) (cs : List Char) : Option Nat :=
  if prevW then none
  else
    match tryKeywordBoundary refsWord cs with
    | some (len, _) => some len
    | none =>
      match tryKeywordBoundary biblioWord cs with
      | some (len, _) => some len
      | none =>
        match stripCI ackWord cs with
        | none => none
        | some rest =>
          match rest with
          | [] => some ackWord.length
          | c :: rest2 =>
            if toLowerAscii c = 's' then
              match rest2 with
              | [] => some (ackWord.length + 1)
              | d :: _ =>
                if isWordC d then none else some (ackWord.length + 1)
            else if isWordC c then none
            else some ackWord.length

/-- Left-to-right scan for the first match of an anchor matcher, i.e.
`String.prototype.match` returning the match index and length. -/
def findAnchorAux (m : Bool → List Char → Option Nat) :
    Bool → Nat → List Char → Option (Nat × Nat)
  | _, _, [] => none
  | prevW, pos, c :: rest =>
    match m prevW (c :: rest) with
    | some len => some (pos, len)
    | none => findAnchorAux m (isWordC c) (pos + 1) rest

def findAnchor (m : Bool → List Char → Option Nat) (cs : List Char) :
    Option (Nat × Nat) :=
  findAnchorAux m false 0 cs

/-- `titleText.replace(/^\d+|\s+\d+$/g, "")` (content.js line 496): a leading
digit run, then a trailing whitespace-run-plus-digit-run, are removed. -/
def stripPageNums (cs : List Char) : List Char :=
  let cs1 := cs.dropWhile isDigitC
  let r := cs1.reverse
  let dRun := r.takeWhile isDigitC
  if dRun = [] then cs1
  else
    let r2 := r.drop dRun.length
    let wRun := r2.takeWhile jsWhitespace
    if wRun = [] then cs1 else (r2.drop wRun.length).reverse

/-- `\d{4}`: the next four characters exist and are digits. -/
def arxivD4 (t : List Char) : Bool :=
  (t.take 4).length = 4 && (t.take 4).all isDigitC

/-- Backtracking over the `\w*` of the arXiv-watermark tail: try `k` word
characters, largest first. -/
def arxivTailKAux (base : Nat) (t3 : List Char) : Nat → Option Nat
  | 0 =>
    let w3 := t3.takeWhile jsWhitespace
    let t5 := t3.drop w3.length
    if arxivD4 t5 then some (base + w3.length + 4) else none
  | k + 1 =>
    let t4 := t3.drop (k + 1)
    let w3 := t4.takeWhile jsWhitespace
    let t5 := t4.drop w3.length
    if arxivD4 t5 then some (base + (k + 1) + w3.length + 4)
    else arxivTailKAux base t3 k

/-- Backtracking over the `\d+` of the arXiv-watermark tail, largest first. -/
def arxivTailDAux (t1 : List Char) : Nat → Option Nat
  | 0 => none
  | d + 1 =>
    let t2 := t1.drop (d + 1)
    let w2 := t2.takeWhile jsWhitespace
    let t3 := t2.drop w2.length
    let wc := t3.takeWhile isWordC
    match arxivTailKAux ((d + 1) + w2.length) t3 wc.length with
    | some r => some r
    | none => arxivTailDAux t1 d

/-- `/\s*\d+\s*\w*\s*\d{4}/` after the closing bracket of the watermark. -/
def arxivTail (t : List Char) : Option Nat :=
  let w1 := t.takeWhile jsWhitespace
  let t1 := t.drop w1.length
  let ds := t1.takeWhile isDigitC
  match arxivTailDAux t1 ds.length with
  | some r => some (w1.length + r)
  | none => none

/-- Greedy `.*\]` with backtracking: try the rightmost `]` reachable by `.`
(which does not cross line terminators) first; the argument is one past the
candidate index. -/
def arxivBracketAux (r8 : List Char) : Nat → Option Nat
  | 0 => none
  | j + 1 =>
    if r8.getD j ' ' = ']' then
      match arxivTail (r8.drop (j + 1)) with
      | some t => some ((j + 1) + t)
      | none => arxivBracketAux r8 j
    else arxivBracketAux r8 j

def arxivBracket (r8 : List Char) : Option Nat :=
  arxivBracketAux r8 (r8.takeWhile (fun c => !(c = '\n' || c = '\r'))).length

def arxivLit : List Char := "arxiv:".toList

/-- One match of `/arXiv:\d+\.\d+v?\d*\s*\[.*\]\s*\d+\s*\w*\s*\d{4}/i`
(content.js line 495) at the current position. -/
def matchArxivAt (cs : List Char) : Option Nat :=
  match stripCI arxivLit cs with
  | none => none
  | some r1 =>
    let d1 := r1.takeWhile isDigitC
    if d1 = [] then none
    else
      match r1.drop d1.length with
      | '.' :: r3 =>
        let d2 := r3.takeWhile isDigitC
        if d2 = [] then none
        else
          let r4 := r3.drop d2.length
          let (vlen, r5) : Nat × List Char :=
            match r4 with
            | c :: r => if toLowerAscii c = 'v' then (1, r) else (0, r4)
            | [] => (0, r4)
          let d3 := r5.takeWhile isDigitC
          let r6 := r5.drop d3.length
          let w1 := r6.takeWhile jsWhitespace
          match r6.drop w1.length with
          | '[' :: r8 =>
            match arxivBracket r8 with
            | some blen =>
              some (arxivLit.length + d1.length + 1 + d2.length + vlen
                + d3.length + w1.length + 1 + blen)
            | none => none
          | _ => none
      | _ => none

/-- Global replacement of the watermark pattern by the empty string; the fuel
equals the input length, which suffices since a matched occurrence is
non-empty and a failed position advances the scan by one. -/
def stripArxivAux : Nat → List Char → List Char
  | 0, cs => cs
  | _ + 1, [] => []
  | fuel + 1, c :: cs =>
    match matchArxivAt (c :: cs) with
    | some len => stripArxivAux fuel ((c :: cs).drop len)
    | none => c :: stripArxivAux fuel cs

def stripArxiv (cs : List Char) : List Char := stripArxivAux cs.length cs

/-- `cleanedText.match(/^([^\n]{20,300}?)\n/m)` (content.js line 506): the
first line that is 20-300 characters long and followed by a newline. -/
def fallbackTitle (cs : List Char) : Option (List Char) :=
  ((splitOnChar '\n' cs).dropLast.find?
    (fun l => 20 ≤ l.length && l.length ≤ 300)).map trimL

/-- content.js lines 492-502: trim, strip watermark and page-number junk,
keep lines longer than 15 characters, rejoin and renormalize. -/
def cleanTitle (raw : List Char) : List Char :=
  let titleText := trimL raw
  let t1 := stripArxiv titleText
  let t2 := stripPageNums t1
  let titleLines := (splitOnChar '\n' t2).filter (fun l => 15 < (trimL l).length)
  trimL (collapseWs (joinWith [' '] titleLines))

structure ParsedPaper where
  title : List Char
  abstract : List Char
  introduction : List Char
  conclusion : List Char
deriving DecidableEq

/-- content.js lines 490-510: title from the text before the first anchor,
with the first-long-line fallback when the cleaned title is empty and the
text is longer than 100 characters. -/
def titleOf (cleanedText : List Char) (endOfTitle : Option Nat) : List Char :=
  let title0 :=
    match endOfTitle with
    | some e => cleanTitle (jsSubstringNat cleanedText 0 e)
    | none => []
  if title0 = [] ∧ 100 < cleanedText.length then
    match fallbackTitle cleanedText with
    | some t => t
    | none => title0
  else title0

/-- content.js lines 513-544: abstract via the keyword anchors, else the
positional fallback between the end of the extracted title and the start of
the Introduction anchor. -/
def abstractOf (cleanedText : List Char) (abstractM introM : Option (Nat × Nat))
    (title : List Char) : List Char :=
  match abstractM, introM with
  | some (as, al), some (is, _) =>
    (trimL (jsSubstringNat cleanedText (as + al) is)).take 3000
  | _, _ =>
    match introM with
    | some (is, _) =>
      let start : Int :=
        if title = [] then 0 else jsIndexOf cleanedText title + title.length
      if start < (is : Int) then
        (trimL (jsSubstringI cleanedText start (is : Int))).take 3000
      else []
    | none => []

/-- content.js lines 546-557. -/
def introductionOf (cleanedText : List Char)
    (introM conclM refsM : Option (Nat × Nat)) : List Char :=
  match introM with
  | none => []
  | some (is, il) =>
    match (match conclM with
           | some (cstart, _) => some cstart
           | none => refsM.map (fun p => p.1)) with
    | some e => (trimL (jsSubstringNat cleanedText (is + il) e)).take 6000
    | none => []

/-- content.js lines 559-570. -/
def conclusionOf (cleanedText : List Char) (conclM refsM : Option (Nat × Nat)) :
    List Char :=
  match conclM, refsM with
  | some (cstart, clen), some (rstart, _) =>
    (trimL (jsSubstringNat cleanedText (cstart + clen) rstart)).take 4000
  | _, _ => []

/-- content.js lines 426-573: the anchor-based section segmentation. -/
def parseResearchPaperFromText (fullText : List Char) : ParsedPaper :=
  let cleanedText := collapseNl (collapseWs fullText)
  let abstractM := findAnchor matchAbstractAt cleanedText
  let introM := findAnchor matchIntroAt cleanedText
  let conclM := findAnchor matchConclusionAt cleanedText
  let refsM := findAnchor matchReferencesAt cleanedText
  let endOfTitle : Option Nat :=
    match abstractM with
    | some (s, _) => some s
    | none => introM.map (fun p => p.1)
  let title := titleOf cleanedText endOfTitle
  { title := title
    abstract := abstractOf cleanedText abstractM introM title
    introduction := introductionOf cleanedText introM conclM refsM
    conclusion := conclusionOf cleanedText conclM refsM }

theorem collapseWsAux_no_newline (b : Bool) (cs : List Char) :
    '\n' ∉ collapseWsAux b cs := by
  induction cs generalizing b with
  | nil => simp [collapseWsAux]
  | cons c rest ih =>
    simp only [collapseWsAux]
    by_cases h : jsWhitespace c
    · simp only [if_pos h]
      cases b with
      | true => exact ih true
      | false =>
        intro hmem
        rcases List.mem_cons.mp hmem with h1 | h1
        · exact absurd h1 (by decide)
        · exact ih true h1
    · simp only [if_neg h]
      intro hmem
      rcases List.mem_cons.mp hmem with h1 | h1
      · apply h
        rw [← h1]
        decide
      · exact ih false h1

theorem collapseWs_no_newline (cs : List Char) : '\n' ∉ collapseWs cs :=
  collapseWsAux_no_newline false cs

theorem collapseNlAux_of_no_newline (b : Bool) (cs : List Char)
    (h : '\n' ∉ cs) : collapseNlAux b cs = cs := by
  induction cs generalizing b with
  | nil => rfl
  | cons c rest ih =>
    have hc : ¬ c = '\n' := fun hc => h (hc ▸ List.mem_cons_self c rest)
    simp only [collapseNlAux, if_neg hc]
    rw [ih false (fun hm => h (List.mem_cons_of_mem c hm))]

theorem collapseNl_of_no_newline (cs : List Char) (h : '\n' ∉ cs) :
    collapseNl cs = cs :=
  collapseNlAux_of_no_newline false cs h

theorem splitOnChar_of_not_mem (sep : Char) (cs : List Char) (h : sep ∉ cs) :
    splitOnChar sep cs = [cs] := by
  induction cs with
  | nil => rfl
  | cons c rest ih =>
    have hc : ¬ c = sep := fun hc => h (hc ▸ List.mem_cons_self c rest)
    simp only [splitOnChar, ih (fun hm => h (List.mem_cons_of_mem c hm)), if_neg hc]

theorem fallbackTitle_of_no_newline (cs : List Char) (h : '\n' ∉ cs) :
    fallbackTitle cs = none := by
  unfold fallbackTitle
  rw [splitOnChar_of_not_mem '\n' cs h]
  rfl

theorem jsSubstringNat_eq (cs : List Char) (a b : Nat) (hab : a ≤ b) :
    jsSubstringNat cs a b = (cs.drop a).take (b - a) := by
  unfold jsSubstringNat
  rw [if_pos hab, List.drop_take]

theorem jsSubstringI_eq (cs : List Char) (a b : Nat) (hab : a ≤ b) :
    jsSubstringI cs (a : Int) (b : Int) = (cs.drop a).take (b - a) := by
  unfold jsSubstringI
  simp only [Int.toNat_natCast]
  rw [jsSubstringNat_eq cs _ _ (by omega : min a cs.length ≤ min b cs.length)]
  rcases Nat.le_total b cs.length with hb | hb
  · have h1 : min b cs.length = b := by omega
    have h2 : min a cs.length = a := by omega
    rw [h1, h2]
  · have h1 : min b cs.length = cs.length := by omega
    rw [h1]
    rcases Nat.le_total a cs.length with ha | ha
    · have h2 : min a cs.length = a := by omega
      rw [h2]
      have hlen : (cs.drop a).length ≤ b - a := by
        simp only [List.length_drop]
        omega
      have hlen2 : (cs.drop a).length ≤ cs.length - a := by
        simp [List.length_drop]
      rw [List.take_of_length_le hlen, List.take_of_length_le hlen2]
    · have h2 : min a cs.length = cs.length := by omega
      rw [h2]
      have hd : cs.drop a = [] := List.drop_eq_nil_iff.mpr ha
      have hd2 : cs.drop cs.length = [] := List.drop_eq_nil_iff.mpr (Nat.le_refl _)
      rw [hd, hd2]
      simp

theorem jsIndexOf_nil (cs : List Char) : jsIndexOf cs [] = 0 := by
  cases cs <;> rfl

theorem titleOf_some (ct : List Char) (e : Nat) (hnl : '\n' ∉ ct) :
    titleOf ct (some e) = cleanTitle (ct.take e) := by
  have hsub : jsSubstringNat ct 0 e = ct.take e := by
    rw [jsSubstringNat_eq ct 0 e (Nat.zero_le e)]
    simp
  simp only [titleOf, hsub]
  by_cases h : cleanTitle (ct.take e) = [] ∧ 100 < ct.length
  · rw [if_pos h, fallbackTitle_of_no_newline ct hnl]
  · rw [if_neg h]

/-- C2: on whitespace-normalized text whose four anchors are first located at
`A < B < C < D` (with each anchor end before the next anchor start),
segmentation yields the title computed from `text[0:A)` and the three body
sections `text[A_end:B)`, `text[B_end:C)`, `text[C_end:D)`, each trimmed and
capped at 3000/6000/4000 characters respectively. -/
theorem c2_segmentation_spans (text : List Char) (A la B lb C lc D ld : Nat)
    (hN : collapseWs text = text)
    (hA : findAnchor matchAbstractAt text = some (A, la))
    (hI : findAnchor matchIntroAt text = some (B, lb))
    (hC : findAnchor matchConclusionAt text = some (C, lc))
    (hD : findAnchor matchReferencesAt text = some (D, ld))
    (hAB : A + la ≤ B) (hBC : B + lb ≤ C) (hCD : C + lc ≤ D) :
    parseResearchPaperFromText text =
      { title := cleanTitle (text.take A)
        abstract := (trimL ((text.drop (A + la)).take (B - (A + la)))).take 3000
        introduction := (trimL ((text.drop (B + lb)).take (C - (B + lb)))).take 6000
        conclusion := (trimL ((text.drop (C + lc)).take (D - (C + lc)))).take 4000 } := by
  have hnl : '\n' ∉ text := by
    rw [← hN]
    exact collapseWs_no_newline text
  have hclean : collapseNl (collapseWs text) = text := by
    rw [hN]
    exact collapseNl_of_no_newline text hnl
  unfold parseResearchPaperFromText
  simp only [hclean, hA, hI, hC, hD]
  rw [titleOf_some text A hnl]
  simp only [ParsedPaper.mk.injEq]
  refine ⟨trivial, ?_, ?_, ?_⟩
  · simp only [abstractOf]
    rw [jsSubstringNat_eq text _ _ hAB]
  · simp only [introductionOf]
    rw [jsSubstringNat_eq text _ _ hBC]
  · simp only [conclusionOf]
    rw [jsSubstringNat_eq text _ _ hCD]

/-- A whitespace-normalized paper text whose four anchors appear in order. -/
def c2DemoText : List Char :=
  ("A Study of Interesting Things Abstract: We show X. 1. Introduction "
    ++ "We study X here. 2. Conclusion Future things remain. "
    ++ "References [1] Someone.").toList

/-- C2 witness: the anchors of `c2DemoText` are at 30/51/84/120 and the
theorem instantiates there. -/
theorem c2_segmentation_spans_witness :
    parseResearchPaperFromText c2DemoText =
      { title := cleanTitle (c2DemoText.take 30)
        abstract := (trimL ((c2DemoText.drop (30 + 10)).take (51 - (30 + 10)))).take 3000
        introduction := (trimL ((c2DemoText.drop (51 + 15)).take (84 - (51 + 15)))).take 6000
        conclusion := (trimL ((c2DemoText.drop (84 + 13)).take (120 - (84 + 13)))).take 4000 } :=
  c2_segmentation_spans c2DemoText 30 10 51 15 84 13 120 10
    rfl rfl rfl rfl rfl
    (by decide) (by decide) (by decide)

theorem abstractOf_fallback (ct : List Char) (B lb i : Nat) (T : List Char)
    (hIdx : jsIndexOf ct T = (i : Int))
    (hs : i + T.length < B) :
    abstractOf ct none (some (B, lb)) T =
      (trimL ((ct.drop (i + T.length)).take (B - (i + T.length)))).take 3000 := by
  simp only [abstractOf]
  by_cases hT0 : T = []
  · subst hT0
    rw [jsIndexOf_nil] at hIdx
    have hi : i = 0 := by exact_mod_cast hIdx.symm
    subst hi
    rw [if_pos (show ([] : List Char) = [] from rfl)]
    simp only [List.length_nil, Nat.add_zero] at hs ⊢
    rw [if_pos (by exact_mod_cast hs : (0 : Int) < (B : Int))]
    have hsub := jsSubstringI_eq ct 0 B (Nat.zero_le B)
    simp only [Nat.cast_zero] at hsub
    rw [hsub]
  · rw [if_neg hT0, hIdx]
    have hcast : (i : Int) + T.length = ((i + T.length : Nat) : Int) := by
      push_cast
      ring
    rw [hcast]
    rw [if_pos (by exact_mod_cast hs)]
    rw [jsSubstringI_eq ct _ B (Nat.le_of_lt hs)]

/-- C6: when no Abstract/Summary anchor exists but an Introduction anchor is
found at `B`, and the extracted title occurs in the text at index `i` with
`i + |title| < B`, the abstract is the text from the end of the title to the
anchor start, trimmed and capped at 3000 characters. -/
theorem c6_abstract_positional_fallback (text : List Char) (B lb i : Nat)
    (hN : collapseWs text = text)
    (hA : findAnchor matchAbstractAt text = none)
    (hI : findAnchor matchIntroAt text = some (B, lb))
    (hIdx : jsIndexOf text (parseResearchPaperFromText text).title = (i : Int))
    (hs : i + (parseResearchPaperFromText text).title.length < B) :
    (parseResearchPaperFromText text).abstract =
      (trimL ((text.drop (i + (parseResearchPaperFromText text).title.length)).take
        (B - (i + (parseResearchPaperFromText text).title.length)))).take 3000 := by
  have hnl : '\n' ∉ text := by
    rw [← hN]
    exact collapseWs_no_newline text
  have hclean : collapseNl (collapseWs text) = text := by
    rw [hN]
    exact collapseNl_of_no_newline text hnl
  have hT : (parseResearchPaperFromText text).title = titleOf text (some B) := by
    unfold parseResearchPaperFromText
    simp only [hclean, hA, hI, Option.map_some']
  have hAbs : (parseResearchPaperFromText text).abstract
      = abstractOf text none (some (B, lb)) (titleOf text (some B)) := by
    unfold parseResearchPaperFromText
    simp only [hclean, hA, hI, Option.map_some']
  rw [hT] at hIdx hs
  rw [hAbs, hT]
  exact abstractOf_fallback text B lb i (titleOf text (some B)) hIdx hs

def c6DemoText : List Char :=
  "Short Title 1. Introduction We study things in detail. References [1]".toList

/-- C6 witness: `c6DemoText` has no abstract anchor, its cleaned title is
empty, and the positional fallback yields the text before the Introduction
anchor. -/
theorem c6_abstract_positional_fallback_witness :
    (parseResearchPaperFromText c6DemoText).abstract =
      (trimL ((c6DemoText.drop
          (0 + (parseResearchPaperFromText c6DemoText).title.length)).take
        (12 - (0 + (parseResearchPaperFromText c6DemoText).title.length)))).take 3000 :=
  c6_abstract_positional_fallback c6DemoText 12 15 0
    rfl rfl rfl rfl (by decide)

/-! ## AnalysisPipeline (part_000 lines 285-614)

The Chrome AI sessions are modelled as a flag (present / absent) plus a pure
response function per capability; `countPromptTokens` is modelled as
unavailable, which is the char-based fallback path of `prepareTextForAPI`.
The local tallies `successfulSteps` and `totalSteps` are exposed as fields of
the result so that theorems can speak about them. -/

/-- `[...new Set(arr)]`: deduplication keeping first occurrences. -/
def dedupAux (seen : List (List Char)) : List (List Char) → List (List Char)
  | [] => []
  | x :: xs =>
    if x ∈ seen then dedupAux seen xs else x :: dedupAux (x :: seen) xs

def dedup (l : List (List Char)) : List (List Char) := dedupAux [] l

/-- The chunking loop `for (i = 0; i < len; i += CHUNK_SIZE)` with
`substring(i, i + CHUNK_SIZE)`; the fuel equals the text length, which
suffices for any positive chunk size (the source always uses 3000). -/
def chunksOfAux (size : Nat) : Nat → List Char → List (List Char)
  | _, [] => []
  | 0, rest => [rest]
  | fuel + 1, ch :: cs =>
    (ch :: cs).take size :: chunksOfAux size fuel ((ch :: cs).drop size)

def chunksOf (size : Nat) (text : List Char) : List (List Char) :=
  chunksOfAux size text.length text

def trimUpper (cs : List Char) : List Char := (trimL cs).map toUpperAscii

def noneLit : List Char := "NONE".toList

/-- part_000 lines 76-122 with no live token counter: normalize whitespace,
keep the text if it is within the char limit, else truncate at sentence
boundaries. -/
def prepareTextForAPI (text : List Char) (charLimit : Nat) : List Char :=
  if text = [] then []
  else
    let normalized := trimL (collapseWs text)
    if normalized.length ≤ charLimit then normalized
    else intelligentTruncate normalized charLimit

/-- The character class of `/^[-•*\d.]+\s*/`. -/
def isBulletChar (c : Char) : Bool :=
  c = '-' || c = '•' || c = '*' || isDigitC c || c = '.'

/-- `f.replace(/^[-•*\d.]+\s*/, "")`. -/
def stripBullet (f : List Char) : List Char :=
  let b := f.takeWhile isBulletChar
  if b = [] then f else (f.drop b.length).dropWhile jsWhitespace

/-- `t.replace(/^\s*[-•*\d.]+\s*/, "")`. -/
def stripBullet2 (f : List Char) : List Char :=
  let a := f.takeWhile jsWhitespace
  let r := f.drop a.length
  let b := r.takeWhile isBulletChar
  if b = [] then f else (r.drop b.length).dropWhile jsWhitespace

def lowerStartsWith (pre : List Char) (t : List Char) : Bool :=
  pre.isPrefixOf (t.map toLowerAscii)

def hereLit : List Char := "here".toList

def basedOnLit : List Char := "based on".toList

/-- part_000 lines 366-370: key-findings post-processing. -/
def processFindings (t : List Char) : List (List Char) :=
  (((splitOnChar '\n' t).filter (fun f => 10 < (trimL f).length)).map
    (fun f => trimL (stripBullet f))).take 3

/-- part_000 lines 488-491: gap parsing of one chunk response. -/
def processGapsChunk (gapsText : List Char) : List (List Char) :=
  ((splitOnChar '\n' gapsText).filter (fun g => 10 < (trimL g).length)).map
    (fun g => trimL (stripBullet g))

/-- part_000 lines 571-579: trajectory post-processing. -/
def processTrajectories (t : List Char) : List (List Char) :=
  (((((splitOnChar '\n' t).filter (fun x => 15 < (trimL x).length)).map
      (fun x => trimL (stripBullet2 x))).filter
      (fun x => !lowerStartsWith hereLit x)).filter
      (fun x => !lowerStartsWith basedOnLit x)).take 5

def findingsPromptOf (ctx : List Char) : List Char :=
  "Extract 2-3 key findings from this paper. List them directly, one per line.\n\nContent:\n".toList
    ++ ctx

def questionPromptOf (chunk : List Char) : List Char :=
  "Read this text and identify the main research question or problem statement in 1-2 sentences. If none is found in this text, respond with only the word \"NONE\".\n                Text:\n                ".toList
    ++ chunk

def methodologyPromptOf (chunk : List Char) : List Char :=
  "Describe the research methodology from this text in 2-3 sentences. If none is found in this text, respond with only the word \"NONE\".\n                Text:\n                ".toList
    ++ chunk

def methodologyAbstractPromptOf (abs : List Char) : List Char :=
  "Describe the research methodology from this abstract in 2-3 sentences.\n              Abstract:\n              ".toList
    ++ abs

def gapsPromptOf (chunk : List Char) : List Char :=
  "Identify 2-3 research gaps or limitations from this text. List them directly, one per line. If none are found, respond with only the word \"NONE\".\n          Text:\n          ".toList
    ++ chunk

def trajectoryPromptOf (ctx : List Char) : List Char :=
  "Based on this research, suggest 3-5 specific future research directions.\n\n".toList
    ++ ctx
    ++ "\n\nList 3-5 concrete, feasible research suggestions:".toList

def conclusionLabel : List Char := "Conclusion".toList

def abstractFallbackLabel : List Char := "Abstract (fallback)".toList

/-- `contexts.map(c => label + ":\n" + text).join("\n\n")`. -/
def joinBlocks (ctxs : List LabeledSection) : List Char :=
  joinWith "\n\n".toList (ctxs.map (fun c => c.label ++ ":\n".toList ++ c.text))

/-- part_000 lines 393-424: the chunk loop of steps 3/4; it breaks once both
a question and a methodology have been found, and each chunk query is skipped
once its field is set. -/
def qmLoop (write : List Char → List Char) :
    List (List Char) → List Char → List Char → List Char × List Char
  | [], q, m => (q, m)
  | chunk :: rest, q, m =>
    if q ≠ [] ∧ m ≠ [] then (q, m)
    else
      let q' := if q = [] then
          let r := write (questionPromptOf chunk)
          if trimUpper r ≠ noneLit ∧ 10 < r.length then trimL r else []
        else q
      let m' := if m = [] then
          let r := write (methodologyPromptOf chunk)
          if trimUpper r ≠ noneLit ∧ 10 < r.length then trimL r else []
        else m
      qmLoop write rest q' m'

/-- part_000 lines 473-497: the chunk loop of the research-gaps step. -/
def gapsLoop (write : List Char → List Char) : List (List Char) → List (List Char)
  | [] => []
  | chunk :: rest =>
    let gapsText := write (gapsPromptOf chunk)
    (if trimUpper gapsText ≠ noneLit then processGapsChunk gapsText else [])
      ++ gapsLoop write rest

/-- `Math.round((s / t) * 100)` on the exact rational value: for the step
counts that occur the float computation is exact enough that half-up
rounding of `100 s / t` is the value computed at part_000 line 596. -/
def jsRound100 (s t : Nat) : Nat := (200 * s + t) / (2 * t)

structure Connection where
  paperId : List Char
  paperTitle : List Char
  ctype : List Char
  strength : Int
  description : List Char
  detectedAt : List Char
deriving DecidableEq

structure PaperInput where
  title : List Char
  url : List Char
  abstract : List Char
  content : List Char
  introductionText : List Char
  conclusionText : List Char

/-- The Chrome AI sessions: presence flags plus pure response functions. -/
structure Collaborators where
  hasSummarizer : Bool
  hasWriter : Bool
  hasLanguageModel : Bool
  summarize : List Char → List Char
  write : List Char → List Char
  prompt : List Char → List Char

structure AnalysisResults where
  title : List Char
  url : List Char
  timestamp : List Char
  abstract : List Char
  keyFindings : List (List Char)
  methodology : List Char
  researchQuestion : List Char
  researchGaps : List (List Char)
  trajectorySuggestions : List (List Char)
  connections : List Connection
  confidence : Nat
  summary : List Char
  successfulSteps : Nat
  totalSteps : Nat

/-- part_000 lines 285-614: the analysis pipeline with pure collaborators
(no call throws, so every guarded step runs when its session is present). -/
def analysePaper (c : Collaborators) (p : PaperInput) (now : List Char) :
    AnalysisResults :=
  let abstract0 := if p.abstract = [] then p.content else p.abstract
  let totalSteps :=
    4 + (if c.hasWriter ∧ p.introductionText ≠ [] then 1 else 0)
      + (if c.hasLanguageModel then 1 else 0)
  let summary :=
    if c.hasSummarizer then c.summarize (prepareTextForAPI abstract0 3000) else []
  let s1 := if c.hasSummarizer then 1 else 0
  let keyFindings :=
    if c.hasWriter then
      processFindings (c.write (findingsPromptOf (prepareTextForAPI abstract0 3000)))
    else []
  let s2 := if c.hasWriter then 1 else 0
  let qm :=
    if c.hasWriter ∧ p.introductionText ≠ [] then
      qmLoop c.write (chunksOf 3000 p.introductionText) [] []
    else ([], [])
  let researchQuestion := qm.1
  let methodology :=
    if c.hasWriter then
      if p.introductionText ≠ [] then qm.2
      else c.write (methodologyAbstractPromptOf abstract0)
    else []
  let s34 :=
    if c.hasWriter then
      if p.introductionText ≠ [] then (if qm.1 ≠ [] then 1 else 0) + 1 else 1
    else 0
  let gapsSource := if p.conclusionText ≠ [] then p.conclusionText else abstract0
  let researchGaps :=
    if c.hasWriter then (dedup (gapsLoop c.write (chunksOf 3000 gapsSource))).take 3
    else []
  let s5 := if c.hasWriter ∧ researchGaps ≠ [] then 1 else 0
  let trajLabel :=
    if p.conclusionText ≠ [] then conclusionLabel else abstractFallbackLabel
  let trajectorySuggestions :=
    if c.hasLanguageModel then
      processTrajectories (c.prompt (trajectoryPromptOf
        (joinBlocks (combineContexts [⟨trajLabel, gapsSource⟩] 4000))))
    else []
  let s6 := if c.hasLanguageModel then 1 else 0
  let successfulSteps := s1 + s2 + s34 + s5 + s6
  { title := p.title
    url := p.url
    timestamp := now
    abstract := abstract0
    keyFindings := keyFindings
    methodology := methodology
    researchQuestion := researchQuestion
    researchGaps := researchGaps
    trajectorySuggestions := trajectorySuggestions
    connections := []
    confidence := jsRound100 successfulSteps totalSteps
    summary := summary
    successfulSteps := successfulSteps
    totalSteps := totalSteps }

/-- The spec's formula (§4.6) for the number of applicable steps, for
comparison with the implementation: 4 base steps, plus one when an
introduction is present together with the writer collaborator, plus one when
the reasoning collaborator is present. -/
def totalApplicableStepsSpec (writerPresent reasoningPresent introPresent : Bool) :
    Nat :=
  4 + (if writerPresent && introPresent then 1 else 0)
    + (if reasoningPresent then 1 else 0)

def c4DemoCollab : Collaborators :=
  { hasSummarizer := true
    hasWriter := true
    hasLanguageModel := false
    summarize := fun _ => "A short teaser summary.".toList
    write := fun _ => noneLit
    prompt := fun _ => [] }

def c4DemoPaper : PaperInput :=
  { title := "Demo".toList
    url := []
    abstract := "We show X.".toList
    content := []
    introductionText := []
    conclusionText := [] }

/-- C4: the reported confidence is `round(successfulSteps / totalSteps ×
100)` with `totalSteps` computed upfront as 4 plus the two optional-step
indicators; in the concrete run `c4DemoCollab`/`c4DemoPaper` (no optional
steps applicable) 3 of the 4 base steps succeed and the confidence is 75. -/
theorem c4_confidence_formula :
    (∀ (c : Collaborators) (p : PaperInput) (now : List Char),
        (analysePaper c p now).confidence =
          jsRound100 (analysePaper c p now).successfulSteps
            (totalApplicableStepsSpec c.hasWriter c.hasLanguageModel
              (!p.introductionText.isEmpty))) ∧
      (analysePaper c4DemoCollab c4DemoPaper []).successfulSteps = 3 ∧
      (analysePaper c4DemoCollab c4DemoPaper []).totalSteps = 4 ∧
      (analysePaper c4DemoCollab c4DemoPaper []).confidence = 75 := by
  refine ⟨?_, by decide, by decide, by decide⟩
  intro c p now
  simp only [analysePaper, totalApplicableStepsSpec]
  congr 2
  by_cases hW : c.hasWriter = true <;>
    by_cases hI : p.introductionText = [] <;>
      simp [hW, hI, List.isEmpty_iff]

/-- C7 (amended): the research-question and research-gaps steps contribute to
the success count exactly when their result is non-empty, but the summary,
key-findings and methodology steps contribute whenever their collaborator is
present, and the trajectory step whenever the reasoning collaborator is
present, regardless of whether the returned output is empty. -/
theorem c7_step_success_tally :
    ∀ (c : Collaborators) (p : PaperInput) (now : List Char),
      (analysePaper c p now).successfulSteps =
        (if c.hasSummarizer then 1 else 0)
        + (if c.hasWriter then 1 else 0)
        + (if c.hasWriter then
             if p.introductionText ≠ [] then
               (if (analysePaper c p now).researchQuestion ≠ [] then 1 else 0) + 1
             else 1
           else 0)
        + (if c.hasWriter ∧ (analysePaper c p now).researchGaps ≠ [] then 1 else 0)
        + (if c.hasLanguageModel then 1 else 0) := by
  intro c p now
  rfl

def c7DemoCollab : Collaborators :=
  { hasSummarizer := true
    hasWriter := false
    hasLanguageModel := false
    summarize := fun _ => []
    write := fun _ => []
    prompt := fun _ => [] }

def c7DemoPaper : PaperInput :=
  { title := "Demo".toList
    url := []
    abstract := "We show X.".toList
    content := []
    introductionText := []
    conclusionText := [] }

/-- C7 counterexample: with only the summarizer present and a summarizer that
returns the empty string, the summary step returns an empty result yet still
counts as successful (1 of 4, confidence 25); the claim would require a zero
tally and confidence 0. -/
theorem c7_step_success_counterexample :
    (analysePaper c7DemoCollab c7DemoPaper []).summary = [] ∧
    (analysePaper c7DemoCollab c7DemoPaper []).successfulSteps = 1 ∧
    (analysePaper c7DemoCollab c7DemoPaper []).confidence = 25 := by
  decide

/-! ## ConnectionDetector (part_000 lines 636-896)

`comparePapers` builds a prompt, calls the language model and then processes
the response (part_000 lines 778-861).  The model call and the platform
builtin `JSON.parse` are external, so the response string and the JSON parser
are parameters of the embedding; the verdict object is modelled with one
`Option` per field (`hasOwnProperty` = `isSome`), and the `strength` field
carries the `parseInt` view of its value (`none` = `NaN`). -/

structure StoredAnalysis where
  timestamp : List Char
  title : List Char
  connections : List Connection
deriving DecidableEq

structure RawVerdict where
  hasConnection : Option Bool
  connectionType : Option (List Char)
  strength : Option (Option Int)
  description : Option (List Char)
deriving DecidableEq

/-- `str.replace(/PAT\s*/g, "")` for a literal `PAT`: remove every occurrence
together with the following whitespace run, scanning left to right. -/
def stripPatWsAux (pat : List Char) : Nat → List Char → List Char
  | 0, cs => cs
  | _ + 1, [] => []
  | fuel + 1, c :: cs =>
    if pat.isPrefixOf (c :: cs) then
      stripPatWsAux pat fuel (((c :: cs).drop pat.length).dropWhile jsWhitespace)
    else c :: stripPatWsAux pat fuel cs

def stripPatWs (pat cs : List Char) : List Char := stripPatWsAux pat cs.length cs

def backtickJsonLit : List Char := "```json".toList

def backtickLit : List Char := "```".toList

def lastIndexOfCharAux (c : Char) : Nat → Option Nat → List Char → Option Nat
  | _, acc, [] => acc
  | pos, acc, x :: rest =>
    lastIndexOfCharAux c (pos + 1) (if x = c then some pos else acc) rest

/-- JavaScript `str.lastIndexOf(c)` for a one-character needle. -/
def jsLastIndexOfChar (cs : List Char) (c : Char) : Int :=
  match lastIndexOfCharAux c 0 none cs with
  | some i => (i : Int)
  | none => -1

/-- part_000 lines 692-709: strip markdown fences, cut before the first
brace and after the last brace, and trim. -/
def cleanJsonString (str : List Char) : List Char :=
  let s1 := stripPatWs backtickJsonLit str
  let s2 := stripPatWs backtickLit s1
  let firstBrace : Int := jsIndexOf s2 [Char.ofNat 123]
  let s3 := if 0 < firstBrace then s2.drop firstBrace.toNat else s2
  let lastBrace := jsLastIndexOfChar s3 (Char.ofNat 125)
  let s4 :=
    if lastBrace ≠ -1 ∧ lastBrace < (s3.length : Int) - 1 then
      s3.take (lastBrace.toNat + 1)
    else s3
  trimL s4

def stripExact (pat cs : List Char) : Option (List Char) :=
  if pat.isPrefixOf cs then some (cs.drop pat.length) else none

def hasConnPat : List Char := "\"hasconnection\"".toList

def trueLit : List Char := "true".toList

def falseLit : List Char := "false".toList

def connTypePat : List Char := "\"connectionType\"".toList

def strengthPat : List Char := "\"strength\"".toList

def descriptionPat : List Char := "\"description\"".toList

/-- `/"hasConnection"\s*:\s*(true|false)/i` at the current position; the
captured group lower-cased equals `true` exactly when the `true` branch
matched. -/
def matchHasConnAt (cs : List Char) : Option Bool :=
  match stripCI hasConnPat cs with
  | none => none
  | some r1 =>
    match r1.dropWhile jsWhitespace with
    | ':' :: r3 =>
      let r4 := r3.dropWhile jsWhitespace
      match stripCI trueLit r4 with
      | some _ => some true
      | none =>
        match stripCI falseLit r4 with
        | some _ => some false
        | none => none
    | _ => none

/-- A case-sensitive `"FIELD"\s*:\s*"([^"]+)"` matcher at the current
position, returning the capture. -/
def matchQuotedFieldAt (pat : List Char) (cs : List Char) : Option (List Char) :=
  match stripExact pat cs with
  | none => none
  | some r1 =>
    match r1.dropWhile jsWhitespace with
    | ':' :: r3 =>
      match r3.dropWhile jsWhitespace with
      | '"' :: r5 =>
        let content := r5.takeWhile (fun c => !(c = '"'))
        if content = [] then none
        else
          match r5.drop content.length with
          | '"' :: _ => some content
          | _ => none
      | _ => none
    | _ => none

def digitsToNatAux (acc : Nat) : List Char → Nat
  | [] => acc
  | c :: rest => digitsToNatAux (acc * 10 + (c.toNat - '0'.toNat)) rest

/-- `/"strength"\s*:\s*(\d+)/` at the current position, with the capture
already passed through `parseInt`. -/
def matchStrengthAt (cs : List Char) : Option Nat :=
  match stripExact strengthPat cs with
  | none => none
  | some r1 =>
    match r1.dropWhile jsWhitespace with
    | ':' :: r3 =>
      let r4 := r3.dropWhile jsWhitespace
      let ds := r4.takeWhile isDigitC
      if ds = [] then none else some (digitsToNatAux 0 ds)
    | _ => none

/-- Left-to-right scan for the first position where a matcher succeeds. -/
def scanFor {α : Type} (m : List Char → Option α) : List Char → Option α
  | [] => none
  | c :: rest =>
    match m (c :: rest) with
    | some v => some v
    | none => scanFor m rest

/-- part_000 lines 864-895: regex field-by-field recovery; all four fields
must be found. -/
def manualExtractJson (text : List Char) : Option RawVerdict :=
  match scanFor matchHasConnAt text,
        scanFor (matchQuotedFieldAt connTypePat) text,
        scanFor matchStrengthAt text,
        scanFor (matchQuotedFieldAt descriptionPat) text with
  | some hc, some ct, some st, some d =>
    some { hasConnection := some hc
           connectionType := some ct
           strength := some (some (st : Int))
           description := some d }
  | _, _, _, _ => none

/-- `Math.max(1, Math.min(10, parseInt(analysis.strength) || 5))` (part_000
lines 833-836): `NaN` and `0` are falsy and default to 5, then the value is
clamped to `[1, 10]`. -/
def resolvedStrength (sv : Option Int) : Int :=
  max 1 (min 10 (match sv with
    | none => 5
    | some v => if v = 0 then 5 else v))

def noneTypeLit : List Char := "none".toList

/-- part_000 lines 810-856: structure validation, the
`hasConnection`/`type` gate, strength clamping, the `< 7` filter, and the
connection record (the `detectedAt` clock is a parameter). -/
def evaluateVerdict (paper2 : StoredAnalysis) (now : List Char)
    (a : RawVerdict) : Option Connection :=
  match a.hasConnection, a.connectionType, a.strength, a.description with
  | some hc, some ct, some sv, some desc =>
    if ¬hc ∨ ct = noneTypeLit then none
    else
      let strength := resolvedStrength sv
      if strength < 7 then none
      else
        some { paperId := paper2.timestamp
               paperTitle := paper2.title
               ctype := ct
               strength := strength
               description := desc.take 200
               detectedAt := now }
  | _, _, _, _ => none

/-- part_000 lines 778-861: response processing of `comparePapers` — clean
the response, try `JSON.parse` (a parameter), fall back to regex recovery,
and validate; every failure path returns `none`. -/
def comparePapersProcess (jsonParse : List Char → Option RawVerdict)
    (paper2 : StoredAnalysis) (now : List Char) (response : List Char) :
    Option Connection :=
  let cleaned := cleanJsonString response
  match jsonParse cleaned with
  | some a => evaluateVerdict paper2 now a
  | none =>
    match manualExtractJson cleaned with
    | some a => evaluateVerdict paper2 now a
    | none => none

/-- C5: for a verdict with `hasConnection = true` and a type other than
`"none"`, the resolved strength is clamped to `[1, 10]`; below 7 the
candidate is rejected, and at 10 it is always returned. -/
theorem c5_strength_threshold (paper2 : StoredAnalysis) (now : List Char)
    (hc : Bool) (ct : List Char) (sv : Option Int) (desc : List Char)
    (hHas : hc = true) (hType : ct ≠ noneTypeLit) :
    (1 ≤ resolvedStrength sv ∧ resolvedStrength sv ≤ 10) ∧
    (resolvedStrength sv < 7 →
      evaluateVerdict paper2 now ⟨some hc, some ct, some sv, some desc⟩ = none) ∧
    (resolvedStrength sv = 10 →
      ∃ conn, evaluateVerdict paper2 now ⟨some hc, some ct, some sv, some desc⟩
          = some conn ∧ conn.strength = 10) := by
  subst hHas
  refine ⟨⟨?_, ?_⟩, ?_, ?_⟩
  · unfold resolvedStrength
    omega
  · unfold resolvedStrength
    omega
  · intro hlt
    simp [evaluateVerdict, hType, hlt]
  · intro h10
    refine ⟨{ paperId := paper2.timestamp
              paperTitle := paper2.title
              ctype := ct
              strength := resolvedStrength sv
              description := desc.take 200
              detectedAt := now }, ?_, h10⟩
    have hn : ¬ resolvedStrength sv < 7 := by omega
    simp [evaluateVerdict, hType, hn]

def c5DemoPaper2 : StoredAnalysis :=
  { timestamp := "2024-01-01T00:00:00Z".toList
    title := "Older paper".toList
    connections := [] }

def citationLit : List Char := "citation".toList

/-- C5 witness: strength 6 is discarded and strength 10 is kept. -/
theorem c5_strength_threshold_witness :
    evaluateVerdict c5DemoPaper2 []
        ⟨some true, some citationLit, some (some 6), some []⟩ = none ∧
    ∃ conn,
      evaluateVerdict c5DemoPaper2 []
          ⟨some true, some citationLit, some (some 10), some []⟩ = some conn ∧
        conn.strength = 10 := by
  constructor
  · exact (c5_strength_threshold c5DemoPaper2 [] true citationLit (some 6) []
      rfl (by decide)).2.1 (by decide)
  · exact (c5_strength_threshold c5DemoPaper2 [] true citationLit (some 10) []
      rfl (by decide)).2.2 (by decide)

/-- C9: if JSON parsing of the cleaned response fails and the regex recovery
also fails, the pair yields no connection; no error escapes (the embedding is
a total function into `Option`). -/
theorem c9_malformed_response_yields_none
    (jsonParse : List Char → Option RawVerdict) (paper2 : StoredAnalysis)
    (now response : List Char)
    (hJson : jsonParse (cleanJsonString response) = none)
    (hManual : manualExtractJson (cleanJsonString response) = none) :
    comparePapersProcess jsonParse paper2 now response = none := by
  simp only [comparePapersProcess, hJson, hManual]

def c9DemoResponse : List Char :=
  "I could not compare these papers, sorry!".toList

/-- C9 witness: a failing parser plus a response from which no field can be
recovered yields `none`. -/
theorem c9_malformed_response_yields_none_witness :
    comparePapersProcess (fun _ => none) c5DemoPaper2 [] c9DemoResponse = none :=
  c9_malformed_response_yields_none (fun _ => none) c5DemoPaper2 [] c9DemoResponse
    rfl (by decide)

/-- C10: with `hasConnection = true` and a non-`"none"` type, a strength
field that is missing, non-numeric, or zero leads to rejection; in the
non-missing cases the resolved strength defaults to 5, which is below the
threshold 7. -/
theorem c10_unparsable_strength_rejected (paper2 : StoredAnalysis)
    (now : List Char) (hc : Bool) (ct : List Char) (desc : List Char)
    (sv : Option (Option Int))
    (hHas : hc = true) (hType : ct ≠ noneTypeLit)
    (hBad : sv = none ∨ sv = some none ∨ sv = some (some 0)) :
    (∀ v, sv = some v → resolvedStrength v = 5) ∧
    evaluateVerdict paper2 now ⟨some hc, some ct, sv, some desc⟩ = none := by
  subst hHas
  rcases hBad with h | h | h <;> subst h
  · exact ⟨(fun v hv => nomatch hv), rfl⟩
  · refine ⟨fun v hv => ?_, ?_⟩
    · cases hv
      decide
    · have hlt : resolvedStrength none < 7 := by decide
      simp [evaluateVerdict, hType, hlt]
  · refine ⟨fun v hv => ?_, ?_⟩
    · cases hv
      decide
    · have hlt : resolvedStrength (some 0) < 7 := by decide
      simp [evaluateVerdict, hType, hlt]

/-- C10 witness: a zero strength is resolved to 5 and rejected. -/
theorem c10_unparsable_strength_rejected_witness :
    resolvedStrength (some 0) = 5 ∧
    evaluateVerdict c5DemoPaper2 []
        ⟨some true, some citationLit, some (some 0), some []⟩ = none := by
  have h := c10_unparsable_strength_rejected c5DemoPaper2 [] true citationLit []
    (some (some 0)) rfl (by decide) (Or.inr (Or.inr rfl))
  exact ⟨h.1 (some 0) rfl, h.2⟩

/-! ## Bidirectional store insertion (part_000 lines 1079-1163)

`saveAnalysisWithConnections` prepends the new analysis, then for each of its
connections finds the first stored analysis with the matching timestamp and
appends a mirrored reverse connection unless one with the new paper's
timestamp already exists, and finally truncates the store to 50 entries.
Only the fields the function touches (`timestamp`, `title`, `connections`)
are modelled. -/

/-- The reverse-connection record pushed at part_000 lines 1125-1132. -/
def mkReverse (newTs newTitle : List Char) (c : Connection) : Connection :=
  { paperId := newTs
    paperTitle := newTitle
    ctype := c.ctype
    strength := c.strength
    description := c.description
    detectedAt := c.detectedAt }

/-- `analyses.find(a => a.timestamp === connection.paperId)` followed by the
guarded in-place push (part_000 lines 1105-1136). -/
def addReverseAux (nts ntt : List Char) (c : Connection) :
    List StoredAnalysis → List StoredAnalysis
  | [] => []
  | a :: rest =>
    if a.timestamp = c.paperId then
      (if a.connections.any (fun cc => cc.paperId = nts) then a
       else { a with connections := a.connections ++ [mkReverse nts ntt c] }) :: rest
    else a :: addReverseAux nts ntt c rest

/-- part_000 lines 1079-1163. -/
def saveAnalysisWithConnections (data : StoredAnalysis)
    (analyses : List StoredAnalysis) : List StoredAnalysis :=
  (data.connections.foldl
    (fun acc c => addReverseAux data.timestamp data.title c acc)
    (data :: analyses)).take 50

/-- Number of connections of `a` pointing at `ts`. -/
def connCountTo (a : StoredAnalysis) (ts : List Char) : Nat :=
  (a.connections.filter (fun c => c.paperId = ts)).length

/-- Number of reverse edges to `ts` over all entries with timestamp `b`. -/
def revEdgeCount (lst : List StoredAnalysis) (b ts : List Char) : Nat :=
  ((lst.filter (fun a => a.timestamp = b)).map (fun a => connCountTo a ts)).sum

theorem revEdgeCount_cons (a : StoredAnalysis) (rest : List StoredAnalysis)
    (b q : List Char) :
    revEdgeCount (a :: rest) b q =
      (if a.timestamp = b then connCountTo a q else 0) + revEdgeCount rest b q := by
  unfold revEdgeCount
  by_cases h : a.timestamp = b
  · rw [List.filter_cons_of_pos (by simp [h]), if_pos h]
    simp
  · rw [List.filter_cons_of_neg (by simp [h]), if_neg h]
    simp

theorem revEdgeCount_of_filter_nil (lst : List StoredAnalysis) (b q : List Char)
    (h : lst.filter (fun a => a.timestamp = b) = []) :
    revEdgeCount lst b q = 0 := by
  unfold revEdgeCount
  rw [h]
  rfl

theorem connCountTo_pos_of_any (a : StoredAnalysis) (q : List Char)
    (h : a.connections.any (fun cc => cc.paperId = q) = true) :
    0 < connCountTo a q := by
  unfold connCountTo
  rw [List.any_eq_true] at h
  obtain ⟨x, hx, hp⟩ := h
  have hmem : x ∈ a.connections.filter (fun cc => cc.paperId = q) :=
    List.mem_filter.mpr ⟨hx, hp⟩
  exact List.length_pos.mpr (List.ne_nil_of_mem hmem)

theorem connCountTo_eq_zero_of_any_false (a : StoredAnalysis) (q : List Char)
    (h : a.connections.any (fun cc => cc.paperId = q) = false) :
    connCountTo a q = 0 := by
  unfold connCountTo
  rw [List.length_eq_zero, List.filter_eq_nil_iff]
  intro x hx hp
  have : a.connections.any (fun cc => cc.paperId = q) = true :=
    List.any_eq_true.mpr ⟨x, hx, hp⟩
  simp [h] at this

theorem connCountTo_push (a : StoredAnalysis) (nts ntt : List Char)
    (c : Connection) :
    connCountTo { a with connections := a.connections ++ [mkReverse nts ntt c] } nts
      = connCountTo a nts + 1 := by
  unfold connCountTo mkReverse
  rw [List.filter_append]
  simp

theorem addReverseAux_length (nts ntt : List Char) (c : Connection)
    (lst : List StoredAnalysis) :
    (addReverseAux nts ntt c lst).length = lst.length := by
  induction lst with
  | nil => rfl
  | cons a rest ih =>
    simp only [addReverseAux]
    by_cases h : a.timestamp = c.paperId
    · rw [if_pos h]
      simp
    · rw [if_neg h]
      simp [ih]

theorem filterTs_addReverse_length (nts ntt b : List Char) (c : Connection)
    (lst : List StoredAnalysis) :
    ((addReverseAux nts ntt c lst).filter (fun a => a.timestamp = b)).length
      = (lst.filter (fun a => a.timestamp = b)).length := by
  induction lst with
  | nil => rfl
  | cons a rest ih =>
    simp only [addReverseAux]
    by_cases h : a.timestamp = c.paperId
    · rw [if_pos h]
      by_cases hany : a.connections.any (fun cc => cc.paperId = nts) = true
      · rw [if_pos hany]
      · rw [if_neg hany]
        by_cases hb : a.timestamp = b
        · rw [List.filter_cons_of_pos (by simp [hb]),
            List.filter_cons_of_pos (by simp [hb])]
          simp
        · rw [List.filter_cons_of_neg (by simp [hb]),
            List.filter_cons_of_neg (by simp [hb])]
    · rw [if_neg h]
      by_cases hb : a.timestamp = b
      · rw [List.filter_cons_of_pos (by simp [hb]),
          List.filter_cons_of_pos (by simp [hb])]
        simp [ih]
      · rw [List.filter_cons_of_neg (by simp [hb]),
          List.filter_cons_of_neg (by simp [hb])]
        exact ih

theorem addReverse_nontarget (nts ntt b q : List Char) (c : Connection)
    (hne : c.paperId ≠ b) (lst : List StoredAnalysis) :
    revEdgeCount (addReverseAux nts ntt c lst) b q = revEdgeCount lst b q := by
  induction lst with
  | nil => rfl
  | cons a rest ih =>
    simp only [addReverseAux]
    by_cases h : a.timestamp = c.paperId
    · rw [if_pos h]
      have hb : ¬ a.timestamp = b := by
        rw [h]
        exact hne
      by_cases hany : a.connections.any (fun cc => cc.paperId = nts) = true
      · rw [if_pos hany]
      · rw [if_neg hany]
        rw [revEdgeCount_cons, revEdgeCount_cons]
        have hb' : ¬ ({ a with
            connections := a.connections ++ [mkReverse nts ntt c] } :
              StoredAnalysis).timestamp = b := hb
        rw [if_neg hb', if_neg hb]
    · rw [if_neg h]
      rw [revEdgeCount_cons, revEdgeCount_cons, ih]

theorem addReverse_target (nts ntt : List Char) (c : Connection)
    (lst : List StoredAnalysis)
    (hUniq : (lst.filter (fun a => a.timestamp = c.paperId)).length ≤ 1) :
    revEdgeCount (addReverseAux nts ntt c lst) c.paperId nts =
      if lst.filter (fun a => a.timestamp = c.paperId) = [] then 0
      else max (revEdgeCount lst c.paperId nts) 1 := by
  induction lst with
  | nil => simp [addReverseAux, revEdgeCount]
  | cons a rest ih =>
    simp only [addReverseAux]
    by_cases h : a.timestamp = c.paperId
    · have hfa : (a :: rest).filter (fun x => x.timestamp = c.paperId)
          = a :: rest.filter (fun x => x.timestamp = c.paperId) :=
        List.filter_cons_of_pos (by simp [h])

      rw [if_pos h]
      rw [hfa] at hUniq
      have hrest0 : rest.filter (fun x => x.timestamp = c.paperId) = [] := by
        simp only [List.length_cons] at hUniq
        exact List.length_eq_zero.mp (by omega)
      have hrevrest : revEdgeCount rest c.paperId nts = 0 :=
        revEdgeCount_of_filter_nil _ _ _ hrest0
      have hne2 : ¬ (a :: rest).filter (fun x => x.timestamp = c.paperId) = [] := by
        rw [hfa]
        exact List.cons_ne_nil _ _
      rw [if_neg hne2]
      by_cases hany : a.connections.any (fun cc => cc.paperId = nts) = true
      · rw [if_pos hany]
        rw [revEdgeCount_cons, if_pos h, hrevrest]
        have := connCountTo_pos_of_any a nts hany
        omega
      · rw [if_neg hany]
        rw [revEdgeCount_cons, revEdgeCount_cons]
        have hts : ({ a with
            connections := a.connections ++ [mkReverse nts ntt c] } :
              StoredAnalysis).timestamp = c.paperId := h
        rw [if_pos hts, if_pos h, hrevrest, connCountTo_push]
        have hz := connCountTo_eq_zero_of_any_false a nts
          (Bool.eq_false_iff.mpr hany)
        omega
    · have hfa : (a :: rest).filter (fun x => x.timestamp = c.paperId)
          = rest.filter (fun x => x.timestamp = c.paperId) :=
        List.filter_cons_of_neg (by simp [h])
      rw [if_neg h]
      rw [hfa] at hUniq
      rw [revEdgeCount_cons, revEdgeCount_cons, if_neg h, hfa]
      simp only [Nat.zero_add]
      exact ih hUniq

theorem fold_addReverse_length (nts ntt : List Char) (edges : List Connection) :
    ∀ lst : List StoredAnalysis,
      (edges.foldl (fun acc e => addReverseAux nts ntt e acc) lst).length
        = lst.length := by
  induction edges with
  | nil => intro lst; rfl
  | cons e rest ih =>
    intro lst
    rw [List.foldl_cons, ih, addReverseAux_length]

theorem fold_addReverse_filter_length (nts ntt b : List Char)
    (edges : List Connection) :
    ∀ lst : List StoredAnalysis,
      (((edges.foldl (fun acc e => addReverseAux nts ntt e acc) lst)).filter
          (fun a => a.timestamp = b)).length
        = (lst.filter (fun a => a.timestamp = b)).length := by
  induction edges with
  | nil => intro lst; rfl
  | cons e rest ih =>
    intro lst
    rw [List.foldl_cons, ih, filterTs_addReverse_length]

theorem fold_addReverse_revCount (nts ntt b : List Char)
    (edges : List Connection) :
    ∀ lst : List StoredAnalysis,
      ((lst.filter (fun a => a.timestamp = b)).length = 1) →
      revEdgeCount (edges.foldl (fun acc e => addReverseAux nts ntt e acc) lst)
          b nts =
        if ∃ e ∈ edges, e.paperId = b then max (revEdgeCount lst b nts) 1
        else revEdgeCount lst b nts := by
  induction edges with
  | nil =>
    intro lst _
    simp
  | cons e rest ih =>
    intro lst hlen
    rw [List.foldl_cons]
    by_cases he : e.paperId = b
    · have hlen' : (((addReverseAux nts ntt e lst).filter
          (fun a => a.timestamp = b)).length = 1) := by
        rw [filterTs_addReverse_length]
        exact hlen
      rw [ih _ hlen']
      have hne : ¬ lst.filter (fun a => a.timestamp = b) = [] := by
        intro hf
        rw [hf] at hlen
        simp at hlen
      have htar := addReverse_target nts ntt e lst (by rw [he]; omega)
      rw [he] at htar
      rw [if_neg hne] at htar
      rw [htar]
      rw [if_pos (⟨e, List.mem_cons_self e rest, he⟩ :
        ∃ e' ∈ e :: rest, e'.paperId = b)]
      by_cases hrest : ∃ e' ∈ rest, e'.paperId = b
      · rw [if_pos hrest]
        omega
      · rw [if_neg hrest]
    · have hlen' : (((addReverseAux nts ntt e lst).filter
          (fun a => a.timestamp = b)).length = 1) := by
        rw [filterTs_addReverse_length]
        exact hlen
      rw [ih _ hlen', addReverse_nontarget nts ntt b nts e he]
      by_cases hrest : ∃ e' ∈ rest, e'.paperId = b
      · obtain ⟨e', hm, hp⟩ := hrest
        rw [if_pos ⟨e', hm, hp⟩, if_pos (⟨e', List.mem_cons_of_mem e hm, hp⟩ :
          ∃ x ∈ e :: rest, x.paperId = b)]
      · rw [if_neg hrest]
        rw [if_neg ?_]
        rintro ⟨e', hm, hp⟩
        rcases List.mem_cons.mp hm with h1 | h1
        · exact he (h1 ▸ hp)
        · exact hrest ⟨e', h1, hp⟩

/-- C8: saving an analysis whose connection list has an edge to prior entry
`B` (the unique stored entry with its timestamp) brings the number of reverse
edges on `B` pointing at the new paper's timestamp to `max k 1` where `k` is
the count before the save: an edge is appended only when none exists.
Saving the same analysis a second time leaves that count unchanged — exactly
one reverse edge when starting from none. -/
theorem save_eq_fold_of_short (data : StoredAnalysis)
    (lst : List StoredAnalysis) (h : lst.length ≤ 49) :
    saveAnalysisWithConnections data lst
      = data.connections.foldl
          (fun acc c => addReverseAux data.timestamp data.title c acc)
          (data :: lst) := by
  unfold saveAnalysisWithConnections
  apply List.take_of_length_le
  rw [fold_addReverse_length]
  simp only [List.length_cons]
  omega

theorem c8_idempotent_symmetric_insert (data : StoredAnalysis)
    (analyses : List StoredAnalysis) (B : StoredAnalysis)
    (hFil : analyses.filter (fun a => a.timestamp = B.timestamp) = [B])
    (hD : data.timestamp ≠ B.timestamp)
    (hEdge : ∃ c ∈ data.connections, c.paperId = B.timestamp)
    (hLen : analyses.length ≤ 48) :
    revEdgeCount (saveAnalysisWithConnections data analyses)
        B.timestamp data.timestamp
      = max (connCountTo B data.timestamp) 1 ∧
    revEdgeCount
        (saveAnalysisWithConnections data
          (saveAnalysisWithConnections data analyses))
        B.timestamp data.timestamp
      = max (connCountTo B data.timestamp) 1 := by
  have hDne : ¬ data.timestamp = B.timestamp := hD
  have hfilcons : ((data :: analyses).filter
      (fun a => a.timestamp = B.timestamp)).length = 1 := by
    rw [List.filter_cons_of_neg (by simp [hDne]), hFil]
    rfl
  have hrev0 : revEdgeCount (data :: analyses) B.timestamp data.timestamp
      = connCountTo B data.timestamp := by
    rw [revEdgeCount_cons, if_neg hDne]
    unfold revEdgeCount
    rw [hFil]
    simp
  have hfold1 := fold_addReverse_revCount data.timestamp data.title B.timestamp
    data.connections (data :: analyses) hfilcons
  rw [if_pos hEdge, hrev0] at hfold1
  have hlen1 : (data.connections.foldl
      (fun acc c => addReverseAux data.timestamp data.title c acc)
      (data :: analyses)).length = analyses.length + 1 := by
    rw [fold_addReverse_length]
    rfl
  have htake1 := save_eq_fold_of_short data analyses (by omega)
  have part1 : revEdgeCount (saveAnalysisWithConnections data analyses)
      B.timestamp data.timestamp = max (connCountTo B data.timestamp) 1 := by
    rw [htake1, hfold1]
  refine ⟨part1, ?_⟩
  have hlenOut : (saveAnalysisWithConnections data analyses).length
      = analyses.length + 1 := by
    rw [htake1, hlen1]
  have hfilOut : ((saveAnalysisWithConnections data analyses).filter
      (fun a => a.timestamp = B.timestamp)).length = 1 := by
    rw [htake1, fold_addReverse_filter_length]
    exact hfilcons
  have hfilcons2 : ((data :: saveAnalysisWithConnections data analyses).filter
      (fun a => a.timestamp = B.timestamp)).length = 1 := by
    rw [List.filter_cons_of_neg (by simp [hDne])]
    exact hfilOut
  have hrev2 : revEdgeCount (data :: saveAnalysisWithConnections data analyses)
      B.timestamp data.timestamp = max (connCountTo B data.timestamp) 1 := by
    rw [revEdgeCount_cons, if_neg hDne, Nat.zero_add]
    exact part1
  have hfold2 := fold_addReverse_revCount data.timestamp data.title B.timestamp
    data.connections (data :: saveAnalysisWithConnections data analyses) hfilcons2
  rw [if_pos hEdge, hrev2] at hfold2
  have htake2 := save_eq_fold_of_short data
    (saveAnalysisWithConnections data analyses) (by omega)
  rw [htake2, hfold2]
  omega

def c8DemoConn : Connection :=
  { paperId := "2024-01-01T00:00:00Z".toList
    paperTitle := "Paper B".toList
    ctype := "citation".toList
    strength := 9
    description := "builds on B".toList
    detectedAt := "2024-02-02T00:00:00Z".toList }

def c8DemoB : StoredAnalysis :=
  { timestamp := "2024-01-01T00:00:00Z".toList
    title := "Paper B".toList
    connections := [] }

def c8DemoData : StoredAnalysis :=
  { timestamp := "2024-02-02T00:00:00Z".toList
    title := "Paper A".toList
    connections := [c8DemoConn] }

/-- C8 witness: saving `c8DemoData` over a one-entry store containing
`c8DemoB` produces one reverse edge, and saving it again still leaves exactly
one. -/
theorem c8_idempotent_symmetric_insert_witness :
    revEdgeCount (saveAnalysisWithConnections c8DemoData [c8DemoB])
        c8DemoB.timestamp c8DemoData.timestamp
      = max (connCountTo c8DemoB c8DemoData.timestamp) 1 ∧
    revEdgeCount
        (saveAnalysisWithConnections c8DemoData
          (saveAnalysisWithConnections c8DemoData [c8DemoB]))
        c8DemoB.timestamp c8DemoData.timestamp
      = max (connCountTo c8DemoB c8DemoData.timestamp) 1 :=
  c8_idempotent_symmetric_insert c8DemoData [c8DemoB] c8DemoB
    (by decide) (by decide) (by decide) (by decide)

end ResearchExt
